import Mathlib

set_option maxRecDepth 40000

/-!
Verification development for the NPC-generator repository (`app.py`, `npc.py`).

The repository orchestrates LLM calls to build a world palette, instantiate
NPCs, build a pairwise relationship graph, and export one record per NPC.
The LLM completion capability is modelled as an oracle: a function from a
call index (for relationship calls, a running call counter; for character
calls, the NPC index) to the structured value the call returns.  All other
logic — palette downsampling, the session loop in `app()`, `NPC.set_relation`,
`NPC.add_to_memory`, `NPC.export_npc` — is embedded directly from the source.

Machine reals from the Python source (slider ratios) are modelled as `ℚ`;
Python `int()` truncation is `pyInt` below.  Python `dict` assignment
(insertion-order preserving, overwrite on existing key) is `dictInsert`.
-/

namespace NPCGen

/-- A parsed `npc_relationship_sheet` result: the structured value the
relationship-generation call returns (schema fields from `npc.py`,
`function_templates[1]`). -/
structure RelationshipSheet where
  relationship_type : String
  relationship_dynamic : String
  relationship_strength : String
  relationship_keywords : List String
  tldr : String
deriving DecidableEq

/-- The five fixed trait keys stored in `self.character_sheet`
(`npc.py`, `NPC.__init__`). -/
structure CharacterSheet where
  intellect : String
  charisma : String
  integrity : String
  resilience : String
  kindness : String
deriving DecidableEq

/-- A parsed `npc_character_sheet` result: the structured value the
character-generation call returns (`npc.py`, `generate_character_details`). -/
structure CharDetails where
  name : String
  TLDR : String
  speech_pattern : String
  character_motivation : String
  sheet : CharacterSheet
deriving DecidableEq

/-- Python `dict` assignment `d[k] = v` on an insertion-ordered association
list: if the key is present its value is replaced in place, otherwise the
pair is appended at the end. -/
def dictInsert {V : Type} (d : List (String × V)) (k : String) (v : V) :
    List (String × V) :=
  if d.any (fun p => p.1 == k) then
    d.map (fun p => if p.1 == k then (k, v) else p)
  else
    d ++ [(k, v)]

/-- Python `dict` lookup `d[k]` (as an `Option`). -/
def dictGet {V : Type} (d : List (String × V)) (k : String) : Option V :=
  (d.find? (fun p => p.1 == k)).map (fun p => p.2)

/-- The state of one `NPC` object (`npc.py`, class `NPC`): identity fields
set by `__init__` from the character-generation call, plus the mutable
`relations` dict and `memory` list. -/
structure NPCState where
  name : String
  tldr : String
  speech_pattern : String
  motivation : String
  character_sheet : CharacterSheet
  relations : List (String × RelationshipSheet)
  memory : List String
deriving DecidableEq

/-- The identity part of `NPC.__init__`: copy the character-generation
result into the object's fields; `relations` and `memory` start empty. -/
def mkNPC (cd : CharDetails) : NPCState :=
  { name := cd.name
    tldr := cd.TLDR
    speech_pattern := cd.speech_pattern
    motivation := cd.character_motivation
    character_sheet := cd.sheet
    relations := []
    memory := [] }

/-- A default `NPCState`, used only as the out-of-range default of list
indexing in theorem statements. -/
def dummyNPC : NPCState :=
  { name := "", tldr := "", speech_pattern := "", motivation := ""
    character_sheet := { intellect := "", charisma := "", integrity := ""
                         resilience := "", kindness := "" }
    relations := [], memory := [] }

/-! ### JSON serialization (`json.dumps` with default separators)

`json.dumps` escaping is modelled for the two escape-relevant ASCII
characters (backslash and double quote); the remaining control-character
escapes never arise in the values this development evaluates. -/

/-- Escape one character as inside a JSON string literal. -/
def jsonEscapeChar (c : Char) : String :=
  if c = '\\' then "\\\\"
  else if c = '"' then "\\\""
  else String.singleton c

/-- A JSON string literal. -/
def jsonStr (s : String) : String :=
  "\"" ++ String.join (s.data.map jsonEscapeChar) ++ "\""

/-- A JSON array of strings, `json.dumps` default separators. -/
def jsonStrList (xs : List String) : String :=
  "[" ++ String.intercalate ", " (xs.map jsonStr) ++ "]"

/-- Serialization of one relationship sheet, in schema key order. -/
def dumpsSheet (r : RelationshipSheet) : String :=
  "\x7b" ++ jsonStr "relationship_type" ++ ": " ++ jsonStr r.relationship_type
  ++ ", " ++ jsonStr "relationship_dynamic" ++ ": " ++ jsonStr r.relationship_dynamic
  ++ ", " ++ jsonStr "relationship_strength" ++ ": " ++ jsonStr r.relationship_strength
  ++ ", " ++ jsonStr "relationship_keywords" ++ ": " ++ jsonStrList r.relationship_keywords
  ++ ", " ++ jsonStr "tldr" ++ ": " ++ jsonStr r.tldr
  ++ "\x7d"

/-- Serialization of an `NPC.relations` dict: `json.dumps(npc.relations)`
as used on line 168 of `app.py` (insertion order preserved). -/
def dumpsRelations (rel : List (String × RelationshipSheet)) : String :=
  "\x7b"
  ++ String.intercalate ", " (rel.map (fun p => jsonStr p.1 ++ ": " ++ dumpsSheet p.2))
  ++ "\x7d"

/-- Serialization of a character sheet, in the insertion order fixed by
`NPC.__init__`. -/
def dumpsCharSheet (cs : CharacterSheet) : String :=
  "\x7b" ++ jsonStr "intellect" ++ ": " ++ jsonStr cs.intellect
  ++ ", " ++ jsonStr "charisma" ++ ": " ++ jsonStr cs.charisma
  ++ ", " ++ jsonStr "integrity" ++ ": " ++ jsonStr cs.integrity
  ++ ", " ++ jsonStr "resilience" ++ ": " ++ jsonStr cs.resilience
  ++ ", " ++ jsonStr "kindness" ++ ": " ++ jsonStr cs.kindness
  ++ "\x7d"

/-! ### `NPC.set_relation` and `NPC.add_to_memory` -/

/-- The state effect of `NPC.set_relation` (`npc.py` line 295): store the
parsed call result in `self.relations` under the other NPC's name.  The
call result itself comes from the relationship oracle at the session's
current call counter; `edge` is that result. -/
def set_relation (self : NPCState) (otherName : String) (edge : RelationshipSheet) :
    NPCState :=
  { self with relations := dictInsert self.relations otherName edge }

/-- The body of `NPC.add_to_memory` (`npc.py` lines 205-231): extend the
memory with the conversation; if it then exceeds 8 entries, replace the
whole memory by the one-element summary produced by `batch_summarize`
(whose LLM call is the `summaryOracle`, applied to the extended memory). -/
def add_to_memory (self : NPCState) (conversation : List String)
    (summaryOracle : List String → String) : NPCState :=
  let extended := self.memory ++ conversation
  if extended.length > 8 then
    { self with memory := [summaryOracle extended] }
  else
    { self with memory := extended }

/-! ### `NPC.export_npc` -/

/-- The sanitizer `re.sub('[^a-zA-Z]', '_', name)` applied to one character:
ASCII letters are kept, everything else becomes an underscore. -/
def sanitizeChar (c : Char) : Char :=
  if ('a' ≤ c ∧ c ≤ 'z') ∨ ('A' ≤ c ∧ c ≤ 'Z') then c else '_'

/-- The record-identifier sanitizer of `NPC.export_npc` (`npc.py` line 314):
`re.sub('[^a-zA-Z]', '_', self.name)`. -/
def sanitizeName (s : String) : String :=
  String.mk (s.data.map sanitizeChar)

/-- The persistent record store: a directory-existence set and a
path-to-content file map (both insertion-ordered, as the file system is
opaque here; `files` uses overwrite-on-existing-path semantics of
`open(path, "w")`). -/
structure Store where
  dirs : List String
  files : List (String × String)
deriving DecidableEq

/-- The empty store. -/
def emptyStore : Store := { dirs := [], files := [] }

/-- The `npc_data` payload of `NPC.export_npc` as an ordered key/serialized
value list (`npc.py` lines 306-313; Python dict literal order). -/
def exportPairs (npc : NPCState) : List (String × String) :=
  [("name", jsonStr npc.name),
   ("tldr", jsonStr npc.tldr),
   ("speech_pattern", jsonStr npc.speech_pattern),
   ("motivation", jsonStr npc.motivation),
   ("character_sheet", dumpsCharSheet npc.character_sheet),
   ("relations", dumpsRelations npc.relations)]

/-- The serialized export payload (`json.dump(npc_data, file, indent=4)`;
the indentation whitespace is not modelled, the content and key order are). -/
def dumpsPayload (npc : NPCState) : String :=
  "\x7b"
  ++ String.intercalate ", " ((exportPairs npc).map (fun p => jsonStr p.1 ++ ": " ++ p.2))
  ++ "\x7d"

/-- The body of `NPC.export_npc` (`npc.py` lines 297-316): create the
output directory if absent, then write the serialized payload to
`output_directory/<sanitized name>.json`, overwriting any existing file. -/
def export_npc (store : Store) (output_directory : String) (npc : NPCState) : Store :=
  let store1 :=
    if output_directory ∈ store.dirs then store
    else { store with dirs := store.dirs ++ [output_directory] }
  let path := output_directory ++ "/" ++ sanitizeName npc.name ++ ".json"
  { store1 with files := dictInsert store1.files path (dumpsPayload npc) }

/-- The export loop at the end of `app()` (`app.py` lines 171-172): export
every generated NPC in order into the same directory. -/
def exportAll (store : Store) (output_directory : String) (npcs : List NPCState) : Store :=
  npcs.foldl (fun s p => export_npc s output_directory p) store

/-! ### World palette generation (`generate_lists`) and slider targets -/

/-- A motivating entity as returned by `npc_world_builder`. -/
structure MotEnt where
  motivating_name : String
  motivating_description : String
deriving DecidableEq

/-- The three candidate lists parsed from the world-builder call. -/
structure RawLists where
  personas : List String
  occupations : List String
  motivating_entities : List MotEnt
deriving DecidableEq

/-- One downsampling step of `generate_lists` (`app.py` lines 106-112):
`np.random.choice(l, replace=False, size=target)` when the list is longer
than the target, otherwise the list unchanged.  Sampling `target` elements
without replacement is modelled as taking the first `target` elements of
`shuffled`, a permutation of `l` chosen by the random source (the
permutation hypothesis is supplied at the theorems). -/
def downsample {α : Type} (l : List α) (target : Nat) (shuffled : List α) : List α :=
  if l.length > target then shuffled.take target else l

/-- The post-parse part of `generate_lists` (`app.py` lines 106-113): each
of the three lists is downsampled independently against its own target. -/
def generate_lists (raw : RawLists)
    (num_characteristics num_occupations num_motivating_entities : Nat)
    (shP shO : List String) (shM : List MotEnt) : RawLists :=
  { personas := downsample raw.personas num_characteristics shP
    occupations := downsample raw.occupations num_occupations shO
    motivating_entities := downsample raw.motivating_entities num_motivating_entities shM }

/-- The fixed constant of `app.py` line 11. -/
def downscale_factor : ℚ := 1

/-- Python `int()` on a rational: truncation toward zero. -/
def pyInt (q : ℚ) : ℤ :=
  if q < 0 then ⌈q⌉ else ⌊q⌋

/-- The four caller-facing numeric inputs of the form in `app()`; each field
carries the slider it comes from (`app.py` lines 127-136): `npc_diversity`
is the slider labeled "Diversity of Occupations", `character_diversity` the
slider labeled "Diversity of Character Traits". -/
structure SliderInputs where
  npc_diversity : ℚ
  character_diversity : ℚ
  motivation_diversity : ℚ
  num_npcs : ℕ
deriving DecidableEq

/-- The three palette targets as computed into `game_details` (`app.py`
lines 145-147), in source order:
`num_occupations = int(num_npcs * character_diversity / downscale_factor)`,
`num_characteristics = int(num_npcs * npc_diversity / downscale_factor)`,
`num_motivating_entities = int(num_npcs * motivation_diversity / downscale_factor)`. -/
def gameDetailsTargets (inp : SliderInputs) : ℤ × ℤ × ℤ :=
  (pyInt ((inp.num_npcs : ℚ) * inp.character_diversity / downscale_factor),
   pyInt ((inp.num_npcs : ℚ) * inp.npc_diversity / downscale_factor),
   pyInt ((inp.num_npcs : ℚ) * inp.motivation_diversity / downscale_factor))

/-- Modelled from the spec claim wording (for comparison with
`gameDetailsTargets`): "each target palette size is derived as
round(totalCount × ratio / downscaleFactor) ... the occupations target uses
the occupation-diversity ratio, the personas target uses the
character/persona-diversity ratio, and the motivating-entities target uses
the motivation-diversity ratio", with the occupation-diversity ratio being
the "Diversity of Occupations" slider (`npc_diversity`) and the
character-diversity ratio the "Diversity of Character Traits" slider
(`character_diversity`).  Components in the same order as
`gameDetailsTargets`: (occupations, personas, motivating entities). -/
def claimedTargets (inp : SliderInputs) : ℤ × ℤ × ℤ :=
  (round ((inp.num_npcs : ℚ) * inp.npc_diversity / downscale_factor),
   round ((inp.num_npcs : ℚ) * inp.character_diversity / downscale_factor),
   round ((inp.num_npcs : ℚ) * inp.motivation_diversity / downscale_factor))

/-! ### The session loop of `app()` (`app.py` lines 152-169)

The loop keeps `name_list` and `npc_nodes` and, for each new NPC, first
generates its identity (one character-generation call, oracle `co`,
indexed by the NPC's position) and then runs the relationship inner loop
over all previously created NPCs in creation order.  Every
relationship-generation call draws its parsed result from the relationship
oracle `ro` at the session-wide running call counter, so arbitrary
dependence of each response on the request history is covered.  The
session additionally records a trace of observable events: NPC creations
and relationship-generation calls, each relationship call tagged with the
name presented as "NPC 1", the name presented as "NPC 2", and the extra
context string passed (or `none` for the first call of a pair). -/

/-- An observable session event: an NPC creation completing, or a
relationship-generation call being issued (`npc1`, `npc2` are the names
presented in those roles; `ctx` the extra context string, if any). -/
inductive Event where
  | create (name : String) : Event
  | relCall (npc1 npc2 : String) (ctx : Option String) : Event
deriving DecidableEq

/-- The inner relationship loop (`app.py` lines 166-168), processing the
prior NPCs in creation order.  For each prior `p`: a first call
`npc_node.set_relation(p)` (new NPC as NPC 1, no context) whose result is
the oracle at the current counter, then a second call
`p.set_relation(npc_node, json.dumps(npc_node.relations))` (prior as NPC 1,
context = the new NPC's serialized relations dict as updated by the first
call) whose result is the oracle at the next counter.  Returns the updated
priors, the updated new NPC, the new counter, and the extended trace. -/
def relLoop (ro : Nat → RelationshipSheet) :
    List NPCState → NPCState → Nat → List Event →
    List NPCState × NPCState × Nat × List Event
  | [], nn, cnt, tr => ([], nn, cnt, tr)
  | p :: ps, nn, cnt, tr =>
    let e1 := ro cnt
    let nn1 := set_relation nn p.name e1
    let ctx := dumpsRelations nn1.relations
    let e2 := ro (cnt + 1)
    let p1 := set_relation p nn1.name e2
    let tr1 := tr ++ [Event.relCall nn.name p.name none,
                      Event.relCall p.name nn1.name (some ctx)]
    let rest := relLoop ro ps nn1 (cnt + 2) tr1
    (p1 :: rest.1, rest.2)

/-- The session state threaded through the generation loop of `app()`. -/
structure SessionState where
  name_list : List String
  npc_nodes : List NPCState
  callCount : Nat
  trace : List Event
deriving DecidableEq

/-- The initial session state (`app.py` lines 152-153). -/
def initSession : SessionState :=
  { name_list := [], npc_nodes := [], callCount := 0, trace := [] }

/-- One iteration of the generation loop (`app.py` lines 155-169) for NPC
index `i`: create the NPC from the character oracle, append its name and
node, then run the relationship inner loop against all previously created
NPCs. -/
def npcStep (co : Nat → CharDetails) (ro : Nat → RelationshipSheet)
    (st : SessionState) (i : Nat) : SessionState :=
  let cd := co i
  let npc := mkNPC cd
  let tr0 := st.trace ++ [Event.create cd.name]
  let res := relLoop ro st.npc_nodes npc st.callCount tr0
  { name_list := st.name_list ++ [cd.name]
    npc_nodes := res.1 ++ [res.2.1]
    callCount := res.2.2.1
    trace := res.2.2.2 }

/-- The full generation loop for `num_npcs` NPCs. -/
def runSession (co : Nat → CharDetails) (ro : Nat → RelationshipSheet)
    (num_npcs : Nat) : SessionState :=
  (List.range num_npcs).foldl (npcStep co ro) initSession

/-! ### The app-level pipeline with palette draws (for the abort claim)

Each loop iteration of `app()` begins with three uniform draws from the
palette (`app.py` lines 156-158); `np.random.choice` on an empty list
raises, which aborts the whole session.  The draws feed only the prompt of
the character-generation call (absorbed by the oracle), so the successful
case continues with `npcStep`. -/

/-- The draw `np.random.choice(l)`: an arbitrary element selected by the
random index `r`, or a failure when the list is empty (numpy raises
`ValueError: a must be non-empty`). -/
def randChoice {α : Type} (l : List α) (r : Nat) : Option α :=
  if h : 0 < l.length then some (l.get ⟨r % l.length, Nat.mod_lt r h⟩) else none

/-- The generation loop of `app()` with the per-iteration palette draws.
On a failed draw the session aborts; the error value is the number of NPCs
created before the abort. -/
def appLoop (palette : RawLists) (pick : Nat → Nat)
    (co : Nat → CharDetails) (ro : Nat → RelationshipSheet) :
    List Nat → SessionState → Except Nat SessionState
  | [], st => Except.ok st
  | i :: rest, st =>
    match randChoice palette.personas (pick (3 * i)),
          randChoice palette.occupations (pick (3 * i + 1)),
          randChoice palette.motivating_entities (pick (3 * i + 2)) with
    | some _, some _, some _ => appLoop palette pick co ro rest (npcStep co ro st i)
    | _, _, _ => Except.error st.npc_nodes.length

/-- The palette as computed by the submitted-form path of `app()`: the raw
world-builder lists downsampled against the slider-derived targets
(`num_characteristics` gates `personas`, `num_occupations` gates
`occupations`, `num_motivating_entities` gates `motivating_entities`). -/
def appPalette (raw : RawLists) (inp : SliderInputs)
    (shP shO : List String) (shM : List MotEnt) : RawLists :=
  generate_lists raw (gameDetailsTargets inp).2.1.toNat (gameDetailsTargets inp).1.toNat
    (gameDetailsTargets inp).2.2.toNat shP shO shM

/-- The submitted-form path of `app()` (`app.py` lines 140-169): compute
the three palette targets from the sliders, downsample the raw
world-builder lists against them, then run the generation loop with the
per-iteration palette draws. -/
def runApp (raw : RawLists) (inp : SliderInputs)
    (shP shO : List String) (shM : List MotEnt) (pick : Nat → Nat)
    (co : Nat → CharDetails) (ro : Nat → RelationshipSheet) :
    Except Nat SessionState :=
  appLoop (appPalette raw inp shP shO shM) pick co ro (List.range inp.num_npcs) initSession

/-! ### Closed forms of the session loop

These definitions give, for the session run on oracles `co`/`ro`, the
explicit value of every NPC's relations dict and of the event trace; the
characterization theorems below prove the loop equal to them.  The call
counter at the start of the step creating NPC `i` is `i * (i - 1)`
(two calls for each of the `0 + 1 + ⋯ + (i-1)` earlier pairs); within that
step the pair with prior `idx` uses calls `i*(i-1) + 2*idx` (first
direction, new NPC's perspective) and `i*(i-1) + 2*idx + 1` (second
direction, prior's perspective). -/

/-- The first `t` edges accumulated by the new NPC `i` during its creation
step: its perspective on priors `0, …, t-1`, in order. -/
def newEdgesPrefix (co : Nat → CharDetails) (ro : Nat → RelationshipSheet)
    (i t : Nat) : List (String × RelationshipSheet) :=
  (List.range t).map (fun s => ((co s).name, ro (i * (i - 1) + 2 * s)))

/-- The relations dict of NPC `i` after `m` NPCs have been created
(`i < m`, all names distinct): first its own perspective on every earlier
NPC (accumulated during its creation step), then, appended in order, the
edges toward each later NPC `j` produced by the second call of the pair
`(j, i)`. -/
def closedRelations (co : Nat → CharDetails) (ro : Nat → RelationshipSheet)
    (i m : Nat) : List (String × RelationshipSheet) :=
  newEdgesPrefix co ro i i
  ++ (List.range' (i + 1) (m - (i + 1))).map
      (fun j => ((co j).name, ro (j * (j - 1) + 2 * i + 1)))

/-- The full state of NPC `i` after `m` NPCs have been created. -/
def npcAt (co : Nat → CharDetails) (ro : Nat → RelationshipSheet)
    (i m : Nat) : NPCState :=
  { mkNPC (co i) with relations := closedRelations co ro i m }

/-- The event block of the step creating NPC `i`: the creation event, then
for each prior `idx` (in creation order) the first-direction call with no
context and the second-direction call whose context serializes the new
NPC's relations as accumulated through pair `idx`. -/
def stepTrace (co : Nat → CharDetails) (ro : Nat → RelationshipSheet)
    (i : Nat) : List Event :=
  Event.create (co i).name ::
    ((List.range i).map (fun idx =>
      [Event.relCall (co i).name (co idx).name none,
       Event.relCall (co idx).name (co i).name
         (some (dumpsRelations (newEdgesPrefix co ro i (idx + 1))))])).flatten

/-- The whole session trace for `n` NPCs. -/
def fullTrace (co : Nat → CharDetails) (ro : Nat → RelationshipSheet)
    (n : Nat) : List Event :=
  ((List.range n).map (stepTrace co ro)).flatten

/-- Whether an event is a relationship-generation call. -/
def Event.isRel : Event → Bool
  | Event.relCall _ _ _ => true
  | _ => false

/-- The number of relationship-generation calls recorded in a trace. -/
def countRel (tr : List Event) : Nat :=
  (tr.filter Event.isRel).length

/-! Intermediate closed forms for the inner loop `relLoop`, recursing the
same way it does. -/

/-- The priors after the inner loop: each gets the second-direction edge of
its pair appended under the new NPC's name. -/
def priorsOut (ro : Nat → RelationshipSheet) (nName : String) :
    Nat → List NPCState → List NPCState
  | _, [] => []
  | cnt, p :: ps =>
    { p with relations := p.relations ++ [(nName, ro (cnt + 1))] }
      :: priorsOut ro nName (cnt + 2) ps

/-- The edges the new NPC accumulates over the inner loop, in order. -/
def newEdges (ro : Nat → RelationshipSheet) :
    Nat → List NPCState → List (String × RelationshipSheet)
  | _, [] => []
  | cnt, p :: ps => (p.name, ro cnt) :: newEdges ro (cnt + 2) ps

/-- The events the inner loop appends, given the new NPC's relations
accumulated so far (`acc`). -/
def relTrace (ro : Nat → RelationshipSheet) (nName : String) :
    List (String × RelationshipSheet) → Nat → List NPCState → List Event
  | _, _, [] => []
  | acc, cnt, p :: ps =>
    Event.relCall nName p.name none ::
    Event.relCall p.name nName
        (some (dumpsRelations (acc ++ [(p.name, ro cnt)]))) ::
    relTrace ro nName (acc ++ [(p.name, ro cnt)]) (cnt + 2) ps

/-! ### Concrete oracles for the closed scenario theorems -/

/-- A concrete character-generation result with the given name. -/
def cdOf (nm : String) : CharDetails :=
  { name := nm, TLDR := "t", speech_pattern := "s", character_motivation := "m"
    sheet := { intellect := "smart", charisma := "pleasant", integrity := "neutral"
               resilience := "flexible", kindness := "caring" } }

/-- A concrete character oracle producing three distinct names. -/
def coABC : Nat → CharDetails :=
  fun i => if i = 0 then cdOf "Ann" else if i = 1 then cdOf "Bo" else cdOf "Cy"

/-- A concrete character oracle with a name collision: the second and third
NPCs both get the name "Bo". -/
def coColl : Nat → CharDetails :=
  fun i => if i = 0 then cdOf "Ann" else cdOf "Bo"

/-- A concrete relationship oracle whose results are distinguishable by
call index. -/
def roK : Nat → RelationshipSheet :=
  fun k =>
    { relationship_type := "platonic", relationship_dynamic := "equal"
      relationship_strength := "weak", relationship_keywords := ["w"]
      tldr := Nat.repr k }

/-! ## Lemmas about the dict model -/

theorem dictInsert_append {V : Type} (d : List (String × V)) (k : String) (v : V)
    (h : ∀ p ∈ d, p.1 ≠ k) : dictInsert d k v = d ++ [(k, v)] := by
  have hany : d.any (fun p => p.1 == k) = false := by
    simp only [List.any_eq_false, beq_iff_eq]
    exact h
  simp [dictInsert, hany]

theorem dictGet_append {V : Type} (d₁ d₂ : List (String × V)) (k : String) :
    dictGet (d₁ ++ d₂) k = (dictGet d₁ k).or (dictGet d₂ k) := by
  unfold dictGet
  rw [List.find?_append]
  cases d₁.find? (fun p => p.1 == k) <;> simp

theorem dictGet_map_range'_eq {V : Type} (nm : Nat → String) (g : Nat → V) :
    ∀ (k a idx : Nat), a ≤ idx → idx < a + k →
      (∀ s, a ≤ s → s < a + k → nm s = nm idx → s = idx) →
      dictGet ((List.range' a k).map (fun s => (nm s, g s))) (nm idx) = some (g idx)
  | 0, a, idx, hlo, hhi, _ => by omega
  | k + 1, a, idx, hlo, hhi, hinj => by
    rw [show List.range' a (k + 1) = a :: List.range' (a + 1) k from List.range'_succ a k 1]
    by_cases hcase : a = idx
    · subst hcase
      simp [dictGet, List.find?_cons]
    · have hne : (nm a == nm idx) = false := by
        simp only [beq_eq_false_iff_ne, ne_eq]
        intro hEq
        exact hcase (hinj a (Nat.le_refl a) (by omega) hEq)
      have step : dictGet ((a :: List.range' (a + 1) k).map (fun s => (nm s, g s))) (nm idx) =
          dictGet ((List.range' (a + 1) k).map (fun s => (nm s, g s))) (nm idx) := by
        simp [dictGet, List.find?_cons, hne]
      rw [step]
      exact dictGet_map_range'_eq nm g k (a + 1) idx (by omega) (by omega)
        (fun s hs1 hs2 hEq => hinj s (by omega) (by omega) hEq)

theorem dictGet_map_range'_ne {V : Type} (nm : Nat → String) (g : Nat → V) :
    ∀ (k a : Nat) (x : String), (∀ s, a ≤ s → s < a + k → nm s ≠ x) →
      dictGet ((List.range' a k).map (fun s => (nm s, g s))) x = none
  | 0, a, x, _ => by simp [dictGet]
  | k + 1, a, x, h => by
    rw [show List.range' a (k + 1) = a :: List.range' (a + 1) k from List.range'_succ a k 1]
    have hne : (nm a == x) = false := by
      simp only [beq_eq_false_iff_ne, ne_eq]
      exact h a (Nat.le_refl a) (by omega)
    have step : dictGet ((a :: List.range' (a + 1) k).map (fun s => (nm s, g s))) x =
        dictGet ((List.range' (a + 1) k).map (fun s => (nm s, g s))) x := by
      simp [dictGet, List.find?_cons, hne]
    rw [step]
    exact dictGet_map_range'_ne nm g k (a + 1) x (fun s hs1 hs2 => h s (by omega) (by omega))

theorem set_relation_name (p : NPCState) (k : String) (e : RelationshipSheet) :
    (set_relation p k e).name = p.name := rfl

theorem npcAt_name (co : Nat → CharDetails) (ro : Nat → RelationshipSheet) (i m : Nat) :
    (npcAt co ro i m).name = (co i).name := rfl

theorem closedRelations_keys (co : Nat → CharDetails) (ro : Nat → RelationshipSheet)
    (i m : Nat) (hi : i < m) :
    ∀ q ∈ closedRelations co ro i m, ∃ s, s < m ∧ s ≠ i ∧ q.1 = (co s).name := by
  intro q hq
  rcases List.mem_append.mp hq with hq | hq
  · obtain ⟨s, hs, rfl⟩ := List.mem_map.mp hq
    have hs' : s < i := List.mem_range.mp hs
    exact ⟨s, by omega, by omega, rfl⟩
  · obtain ⟨j, hj, rfl⟩ := List.mem_map.mp hq
    have hj' : i + 1 ≤ j ∧ j < (i + 1) + (m - (i + 1)) := List.mem_range'_1.mp hj
    exact ⟨j, by omega, by omega, rfl⟩

theorem closedRelations_succ (co : Nat → CharDetails) (ro : Nat → RelationshipSheet)
    (i m : Nat) (hi : i < m) :
    closedRelations co ro i (m + 1) =
      closedRelations co ro i m ++ [((co m).name, ro (m * (m - 1) + 2 * i + 1))] := by
  unfold closedRelations
  rw [show m + 1 - (i + 1) = (m - (i + 1)) + 1 by omega]
  have hcat := (List.range'_concat (i + 1) (m - (i + 1)) :
    List.range' (i + 1) ((m - (i + 1)) + 1) = _)
  rw [hcat]
  rw [show i + 1 + 1 * (m - (i + 1)) = m by omega]
  simp

theorem runSession_succ (co : Nat → CharDetails) (ro : Nat → RelationshipSheet) (n : Nat) :
    runSession co ro (n + 1) = npcStep co ro (runSession co ro n) n := by
  unfold runSession
  rw [List.range_succ, List.foldl_append]
  rfl

/-! ## Characterization of the inner relationship loop -/

theorem relLoop_eq (ro : Nat → RelationshipSheet) :
    ∀ (ps : List NPCState) (nn : NPCState) (cnt : Nat) (tr : List Event),
      (∀ p ∈ ps, ∀ q ∈ nn.relations, q.1 ≠ p.name) →
      ((ps.map NPCState.name).Nodup) →
      (∀ p ∈ ps, ∀ q ∈ p.relations, q.1 ≠ nn.name) →
      relLoop ro ps nn cnt tr =
        (priorsOut ro nn.name cnt ps,
         { nn with relations := nn.relations ++ newEdges ro cnt ps },
         cnt + 2 * ps.length,
         tr ++ relTrace ro nn.name nn.relations cnt ps)
  | [], nn, cnt, tr, _, _, _ => by
    simp [relLoop, priorsOut, newEdges, relTrace]
  | p :: ps, nn, cnt, tr, h1, h2, h3 => by
    have hfresh : ∀ q ∈ nn.relations, q.1 ≠ p.name := h1 p (by simp)
    have hnn1 : (set_relation nn p.name (ro cnt)).relations =
        nn.relations ++ [(p.name, ro cnt)] := by
      simp [set_relation, dictInsert_append _ _ _ hfresh]
    have h2c : p.name ∉ ps.map NPCState.name ∧ (ps.map NPCState.name).Nodup := by
      rw [List.map_cons] at h2
      exact List.nodup_cons.mp h2
    have hpname : p.name ∉ ps.map NPCState.name := h2c.1
    have h1' : ∀ p' ∈ ps, ∀ q ∈ (set_relation nn p.name (ro cnt)).relations,
        q.1 ≠ p'.name := by
      intro p' hp' q hq
      rw [hnn1] at hq
      rcases List.mem_append.mp hq with hq | hq
      · exact h1 p' (by simp [hp']) q hq
      · have hq' : q = (p.name, ro cnt) := by simpa using hq
        subst hq'
        show p.name ≠ p'.name
        intro hEq
        exact hpname (by rw [hEq]; exact List.mem_map_of_mem NPCState.name hp')
    have h2' : (ps.map NPCState.name).Nodup := h2c.2
    have h3' : ∀ p' ∈ ps, ∀ q ∈ p'.relations,
        q.1 ≠ (set_relation nn p.name (ro cnt)).name := by
      intro p' hp' q hq
      exact h3 p' (by simp [hp']) q hq
    have ih := relLoop_eq ro ps (set_relation nn p.name (ro cnt)) (cnt + 2)
      (tr ++ [Event.relCall nn.name p.name none,
              Event.relCall p.name nn.name
                (some (dumpsRelations (nn.relations ++ [(p.name, ro cnt)])))])
      h1' h2' h3'
    have hp : dictInsert p.relations nn.name (ro (cnt + 1)) =
        p.relations ++ [(nn.name, ro (cnt + 1))] :=
      dictInsert_append _ _ _ (fun q hq => h3 p (by simp) q hq)
    show relLoop ro (p :: ps) nn cnt tr = _
    rw [relLoop]
    rw [show (set_relation nn p.name (ro cnt)).name = nn.name from rfl] at ih ⊢
    rw [show dumpsRelations (set_relation nn p.name (ro cnt)).relations =
        dumpsRelations (nn.relations ++ [(p.name, ro cnt)]) from by rw [hnn1]]
    rw [ih]
    refine Prod.ext ?_ (Prod.ext ?_ (Prod.ext ?_ ?_)) <;> simp only
    · rw [priorsOut]
      congr 1
      simp [set_relation, hp]
    · rw [newEdges, hnn1]
      simp [set_relation]
    · simp [List.length_cons]
      omega
    · rw [relTrace]
      simp [hnn1]

theorem priorsOut_range' (ro : Nat → RelationshipSheet) (nm : String) (g : Nat → NPCState) :
    ∀ (k a base : Nat),
      priorsOut ro nm (base + 2 * a) ((List.range' a k).map g) =
        (List.range' a k).map (fun i =>
          { g i with relations := (g i).relations ++ [(nm, ro (base + 2 * i + 1))] })
  | 0, a, base => by simp [priorsOut]
  | k + 1, a, base => by
    rw [show List.range' a (k + 1) = a :: List.range' (a + 1) k from List.range'_succ a k 1]
    rw [List.map_cons, List.map_cons, priorsOut]
    rw [show base + 2 * a + 2 = base + 2 * (a + 1) by ring]
    rw [priorsOut_range' ro nm g k (a + 1) base]

theorem newEdges_range' (ro : Nat → RelationshipSheet) (g : Nat → NPCState) :
    ∀ (k a base : Nat),
      newEdges ro (base + 2 * a) ((List.range' a k).map g) =
        (List.range' a k).map (fun i => ((g i).name, ro (base + 2 * i)))
  | 0, a, base => by simp [newEdges]
  | k + 1, a, base => by
    rw [show List.range' a (k + 1) = a :: List.range' (a + 1) k from List.range'_succ a k 1]
    rw [List.map_cons, List.map_cons, newEdges]
    rw [show base + 2 * a + 2 = base + 2 * (a + 1) by ring]
    rw [newEdges_range' ro g k (a + 1) base]

theorem relTrace_range' (ro : Nat → RelationshipSheet) (nm : String) (g : Nat → NPCState)
    (E : Nat → List (String × RelationshipSheet)) (base : Nat) :
    ∀ (k a : Nat),
      (∀ i, a ≤ i → i < a + k → E (i + 1) = E i ++ [((g i).name, ro (base + 2 * i))]) →
      relTrace ro nm (E a) (base + 2 * a) ((List.range' a k).map g) =
        ((List.range' a k).map (fun i =>
          [Event.relCall nm (g i).name none,
           Event.relCall (g i).name nm (some (dumpsRelations (E (i + 1))))])).flatten
  | 0, a, _ => by simp [relTrace]
  | k + 1, a, hE => by
    rw [show List.range' a (k + 1) = a :: List.range' (a + 1) k from List.range'_succ a k 1]
    rw [List.map_cons, List.map_cons, relTrace]
    rw [show E a ++ [((g a).name, ro (base + 2 * a))] = E (a + 1) from
      (hE a (Nat.le_refl a) (by omega)).symm]
    rw [show base + 2 * a + 2 = base + 2 * (a + 1) by ring]
    rw [relTrace_range' ro nm g E base k (a + 1)
      (fun i hi1 hi2 => hE i (by omega) (by omega))]
    simp

theorem priorsOut_range (ro : Nat → RelationshipSheet) (nm : String) (g : Nat → NPCState)
    (k base : Nat) :
    priorsOut ro nm base ((List.range k).map g) =
      (List.range k).map (fun i =>
        { g i with relations := (g i).relations ++ [(nm, ro (base + 2 * i + 1))] }) := by
  have h := priorsOut_range' ro nm g k 0 base
  simpa [List.range_eq_range'] using h

theorem newEdges_range (ro : Nat → RelationshipSheet) (g : Nat → NPCState) (k base : Nat) :
    newEdges ro base ((List.range k).map g) =
      (List.range k).map (fun i => ((g i).name, ro (base + 2 * i))) := by
  have h := newEdges_range' ro g k 0 base
  simpa [List.range_eq_range'] using h

theorem relTrace_range (ro : Nat → RelationshipSheet) (nm : String) (g : Nat → NPCState)
    (E : Nat → List (String × RelationshipSheet)) (base k : Nat)
    (hE : ∀ i, i < k → E (i + 1) = E i ++ [((g i).name, ro (base + 2 * i))]) :
    relTrace ro nm (E 0) base ((List.range k).map g) =
      ((List.range k).map (fun i =>
        [Event.relCall nm (g i).name none,
         Event.relCall (g i).name nm (some (dumpsRelations (E (i + 1))))])).flatten := by
  have h := relTrace_range' ro nm g E base k 0 (fun i hi1 hi2 => hE i (by omega))
  simpa [List.range_eq_range'] using h

/-! ## Closed form of the whole session

Under the hypothesis that the character oracle produces pairwise distinct
names (the claims below that depend on it are stated with it; a name
collision is exhibited separately as a counterexample), the session state
after `n` steps is given exactly by the closed forms. -/

theorem runSession_closed (co : Nat → CharDetails) (ro : Nat → RelationshipSheet) :
    ∀ (n : Nat), (∀ i j, i < n → j < n → (co i).name = (co j).name → i = j) →
      (runSession co ro n).name_list = (List.range n).map (fun i => (co i).name) ∧
      (runSession co ro n).npc_nodes = (List.range n).map (fun i => npcAt co ro i n) ∧
      (runSession co ro n).callCount = n * (n - 1) ∧
      (runSession co ro n).trace = fullTrace co ro n
  | 0, _ => by simp [runSession, initSession, fullTrace]
  | n + 1, hinj => by
    obtain ⟨hn, hnodes, hcnt, htr⟩ := runSession_closed co ro n
      (fun i j hi hj => hinj i j (Nat.lt_succ_of_lt hi) (Nat.lt_succ_of_lt hj))
    rw [runSession_succ]
    have hkeys : ∀ p ∈ (List.range n).map (fun i => npcAt co ro i n),
        ∀ q ∈ p.relations, q.1 ≠ (mkNPC (co n)).name := by
      intro p hp q hq
      obtain ⟨i, hi, rfl⟩ := List.mem_map.mp hp
      have hi' : i < n := List.mem_range.mp hi
      obtain ⟨s, hs, hsne, hqs⟩ := closedRelations_keys co ro i n hi' q hq
      rw [hqs]
      show (co s).name ≠ (co n).name
      intro hEq
      have := hinj s n (by omega) (by omega) hEq
      omega
    have hnodup : (((List.range n).map (fun i => npcAt co ro i n)).map NPCState.name).Nodup := by
      rw [List.map_map]
      show ((List.range n).map (fun i => (co i).name)).Nodup
      exact (List.nodup_range n).map_on
        (fun x hx y hy hEq => hinj x y
          (Nat.lt_succ_of_lt (List.mem_range.mp hx))
          (Nat.lt_succ_of_lt (List.mem_range.mp hy)) hEq)
    have hrel := relLoop_eq ro ((List.range n).map (fun i => npcAt co ro i n))
      (mkNPC (co n)) (n * (n - 1))
      (fullTrace co ro n ++ [Event.create (co n).name])
      (by intro p hp q hq; simp [mkNPC] at hq)
      hnodup hkeys
    show (npcStep co ro (runSession co ro n) n).name_list = _ ∧
      (npcStep co ro (runSession co ro n) n).npc_nodes = _ ∧
      (npcStep co ro (runSession co ro n) n).callCount = _ ∧
      (npcStep co ro (runSession co ro n) n).trace = _
    simp only [npcStep]
    rw [hnodes, hcnt, htr, hrel]
    refine ⟨?_, ?_, ?_, ?_⟩
    · rw [hn, List.range_succ, List.map_append]
      simp
    · rw [priorsOut_range, newEdges_range]
      have hpri : (List.range n).map (fun i =>
          ({ npcAt co ro i n with relations :=
            ((npcAt co ro i n).relations ++ [((mkNPC (co n)).name, ro (n * (n - 1) + 2 * i + 1))]) }))
          = (List.range n).map (fun i => npcAt co ro i (n + 1)) := by
        apply List.map_congr_left
        intro i hi
        have hi' : i < n := List.mem_range.mp hi
        have hsucc := closedRelations_succ co ro i n hi'
        simp [npcAt, mkNPC, hsucc]
      rw [hpri]
      have hnew : ({ mkNPC (co n) with relations :=
            ((mkNPC (co n)).relations ++ (List.range n).map (fun i =>
              ((npcAt co ro i n).name, ro (n * (n - 1) + 2 * i)))) } : NPCState)
          = npcAt co ro n (n + 1) := by
        simp [npcAt, mkNPC, closedRelations, newEdgesPrefix, Nat.sub_self]
      rw [hnew, List.range_succ, List.map_append]
      rfl
    · rw [List.length_map, List.length_range]
      cases n with
      | zero => rfl
      | succ k =>
        simp only [Nat.succ_sub_one]
        ring
    · have hE : ∀ i, i < n → newEdgesPrefix co ro n (i + 1)
          = newEdgesPrefix co ro n i
            ++ [((npcAt co ro i n).name, ro (n * (n - 1) + 2 * i))] := by
        intro i hi
        rw [newEdgesPrefix, List.range_succ, List.map_append]
        rfl
      have htr' := relTrace_range ro (mkNPC (co n)).name
        (fun i => npcAt co ro i n) (newEdgesPrefix co ro n) (n * (n - 1)) n hE
      rw [show (mkNPC (co n)).relations = newEdgesPrefix co ro n 0 from by
        simp [mkNPC, newEdgesPrefix]]
      rw [htr']
      have hfull : fullTrace co ro (n + 1) = fullTrace co ro n ++ stepTrace co ro n := by
        rw [fullTrace, fullTrace, List.range_succ, List.map_append, List.flatten_append]
        simp
      rw [hfull, List.append_assoc]
      congr 1

/-! ## Lookup lemmas on the closed relations form -/

theorem npcAt_lookup_lt (co : Nat → CharDetails) (ro : Nat → RelationshipSheet)
    (m i j : Nat)
    (hinj : ∀ a b, a < m → b < m → (co a).name = (co b).name → a = b)
    (hi : i < m) (hj : j < i) :
    dictGet (npcAt co ro i m).relations ((co j).name) = some (ro (i * (i - 1) + 2 * j)) := by
  have hfst : dictGet (newEdgesPrefix co ro i i) ((co j).name)
      = some (ro (i * (i - 1) + 2 * j)) := by
    rw [newEdgesPrefix, List.range_eq_range']
    exact dictGet_map_range'_eq (fun s => (co s).name) (fun s => ro (i * (i - 1) + 2 * s))
      i 0 j (by omega) (by omega)
      (fun s hs1 hs2 hEq => hinj s j (by omega) (by omega) hEq)
  show dictGet (closedRelations co ro i m) ((co j).name) = _
  rw [closedRelations, dictGet_append, hfst]
  rfl

theorem npcAt_lookup_gt (co : Nat → CharDetails) (ro : Nat → RelationshipSheet)
    (m i j : Nat)
    (hinj : ∀ a b, a < m → b < m → (co a).name = (co b).name → a = b)
    (hij : i < j) (hjm : j < m) :
    dictGet (npcAt co ro i m).relations ((co j).name)
      = some (ro (j * (j - 1) + 2 * i + 1)) := by
  have hfst : dictGet (newEdgesPrefix co ro i i) ((co j).name) = none := by
    rw [newEdgesPrefix, List.range_eq_range']
    apply dictGet_map_range'_ne
    intro s hs1 hs2 hEq
    have := hinj s j (by omega) (by omega) hEq
    omega
  have hsnd : dictGet ((List.range' (i + 1) (m - (i + 1))).map
      (fun t => ((co t).name, ro (t * (t - 1) + 2 * i + 1)))) ((co j).name)
      = some (ro (j * (j - 1) + 2 * i + 1)) := by
    exact dictGet_map_range'_eq (fun t => (co t).name)
      (fun t => ro (t * (t - 1) + 2 * i + 1)) (m - (i + 1)) (i + 1) j
      (by omega) (by omega)
      (fun s hs1 hs2 hEq => hinj s j (by omega) (by omega) hEq)
  show dictGet (closedRelations co ro i m) ((co j).name) = _
  rw [closedRelations, dictGet_append, hfst, hsnd]
  rfl

theorem npcAt_lookup_none (co : Nat → CharDetails) (ro : Nat → RelationshipSheet)
    (m i : Nat) (x : String) (hi : i < m)
    (h : ∀ s, s < m → s ≠ i → (co s).name ≠ x) :
    dictGet (npcAt co ro i m).relations x = none := by
  have hfst : dictGet (newEdgesPrefix co ro i i) x = none := by
    rw [newEdgesPrefix, List.range_eq_range']
    exact dictGet_map_range'_ne _ _ i 0 x (fun s hs1 hs2 => h s (by omega) (by omega))
  have hsnd : dictGet ((List.range' (i + 1) (m - (i + 1))).map
      (fun t => ((co t).name, ro (t * (t - 1) + 2 * i + 1)))) x = none := by
    exact dictGet_map_range'_ne _ _ (m - (i + 1)) (i + 1) x
      (fun s hs1 hs2 => h s (by omega) (by omega))
  show dictGet (closedRelations co ro i m) x = none
  rw [closedRelations, dictGet_append, hfst, hsnd]
  rfl

/-! ## Position lemmas on the trace -/

theorem fullTrace_succ (co : Nat → CharDetails) (ro : Nat → RelationshipSheet) (n : Nat) :
    fullTrace co ro (n + 1) = fullTrace co ro n ++ stepTrace co ro n := by
  rw [fullTrace, fullTrace, List.range_succ, List.map_append, List.flatten_append]
  simp

theorem flatten_blocks_length (e1 e2 : Nat → Event) :
    ∀ (k a : Nat), (((List.range' a k).map (fun i => [e1 i, e2 i])).flatten).length = 2 * k
  | 0, a => by simp
  | k + 1, a => by
    rw [show List.range' a (k + 1) = a :: List.range' (a + 1) k from List.range'_succ a k 1]
    rw [List.map_cons, List.flatten_cons, List.length_append]
    rw [flatten_blocks_length e1 e2 k (a + 1)]
    simp
    omega

theorem stepTrace_length (co : Nat → CharDetails) (ro : Nat → RelationshipSheet) (k : Nat) :
    (stepTrace co ro k).length = 2 * k + 1 := by
  rw [stepTrace, List.length_cons, List.range_eq_range']
  rw [flatten_blocks_length
    (fun idx => Event.relCall (co k).name (co idx).name none)
    (fun idx => Event.relCall (co idx).name (co k).name
      (some (dumpsRelations (newEdgesPrefix co ro k (idx + 1))))) k 0]

theorem fullTrace_length (co : Nat → CharDetails) (ro : Nat → RelationshipSheet) :
    ∀ n, (fullTrace co ro n).length = n * n
  | 0 => by simp [fullTrace]
  | n + 1 => by
    rw [fullTrace_succ, List.length_append, fullTrace_length co ro n, stepTrace_length]
    ring

theorem fullTrace_get (co : Nat → CharDetails) (ro : Nat → RelationshipSheet) :
    ∀ (n k r : Nat), k < n → r < 2 * k + 1 →
      (fullTrace co ro n)[k * k + r]? = (stepTrace co ro k)[r]?
  | 0, k, r, hk, _ => by omega
  | n + 1, k, r, hk, hr => by
    rw [fullTrace_succ]
    by_cases hcase : k < n
    · have hlt : k * k + r < (fullTrace co ro n).length := by
        rw [fullTrace_length]
        calc k * k + r < (k + 1) * (k + 1) := by
              have : (k + 1) * (k + 1) = k * k + (2 * k + 1) := by ring
              omega
          _ ≤ n * n := Nat.mul_le_mul hcase hcase
      rw [List.getElem?_append_left hlt]
      exact fullTrace_get co ro n k r hcase hr
    · have hk' : k = n := by omega
      subst hk'
      have hge : (fullTrace co ro k).length ≤ k * k + r := by
        rw [fullTrace_length]
        omega
      rw [List.getElem?_append_right hge, fullTrace_length]
      congr 1
      omega

theorem flatten_blocks_get (e1 e2 : Nat → Event) :
    ∀ (k a t δ : Nat), t < k → δ < 2 →
      (((List.range' a k).map (fun i => [e1 i, e2 i])).flatten)[2 * t + δ]?
        = some (if δ = 0 then e1 (a + t) else e2 (a + t))
  | 0, a, t, δ, ht, _ => by omega
  | k + 1, a, t, δ, ht, hδ => by
    rw [show List.range' a (k + 1) = a :: List.range' (a + 1) k from List.range'_succ a k 1]
    rw [List.map_cons, List.flatten_cons]
    match t with
    | 0 =>
      match δ, hδ with
      | 0, _ => simp
      | 1, _ => simp
    | t + 1 =>
      have harith : 2 * (t + 1) + δ = (2 * t + δ) + 1 + 1 := by ring
      rw [harith, List.cons_append, List.cons_append, List.nil_append]
      rw [List.getElem?_cons_succ, List.getElem?_cons_succ]
      rw [flatten_blocks_get e1 e2 k (a + 1) t δ (by omega) hδ]
      rw [show a + 1 + t = a + (t + 1) by ring]

theorem stepTrace_get_zero (co : Nat → CharDetails) (ro : Nat → RelationshipSheet) (k : Nat) :
    (stepTrace co ro k)[0]? = some (Event.create (co k).name) := by
  simp [stepTrace]

theorem stepTrace_get_first (co : Nat → CharDetails) (ro : Nat → RelationshipSheet)
    (k idx : Nat) (h : idx < k) :
    (stepTrace co ro k)[2 * idx + 1]?
      = some (Event.relCall (co k).name (co idx).name none) := by
  rw [stepTrace, List.range_eq_range', List.getElem?_cons_succ]
  have hfb := flatten_blocks_get
    (fun idx => Event.relCall (co k).name (co idx).name none)
    (fun idx => Event.relCall (co idx).name (co k).name
      (some (dumpsRelations (newEdgesPrefix co ro k (idx + 1))))) k 0 idx 0 h (by omega)
  simpa using hfb

theorem stepTrace_get_second (co : Nat → CharDetails) (ro : Nat → RelationshipSheet)
    (k idx : Nat) (h : idx < k) :
    (stepTrace co ro k)[2 * idx + 2]?
      = some (Event.relCall (co idx).name (co k).name
          (some (dumpsRelations (newEdgesPrefix co ro k (idx + 1))))) := by
  rw [stepTrace, List.range_eq_range']
  rw [show 2 * idx + 2 = (2 * idx + 1) + 1 by ring, List.getElem?_cons_succ]
  have hfb := flatten_blocks_get
    (fun idx => Event.relCall (co k).name (co idx).name none)
    (fun idx => Event.relCall (co idx).name (co k).name
      (some (dumpsRelations (newEdgesPrefix co ro k (idx + 1))))) k 0 idx 1 h (by omega)
  simpa using hfb

theorem sq_decomp : ∀ (n p : Nat), p < n * n →
    ∃ k r, k < n ∧ r < 2 * k + 1 ∧ p = k * k + r
  | 0, p, h => by omega
  | n + 1, p, h => by
    by_cases hp : p < n * n
    · obtain ⟨k, r, hk, hr, hkr⟩ := sq_decomp n p hp
      exact ⟨k, r, by omega, hr, hkr⟩
    · refine ⟨n, p - n * n, by omega, ?_, by omega⟩
      have : (n + 1) * (n + 1) = n * n + 2 * n + 1 := by ring
      omega

theorem trace_relCall_inv (co : Nat → CharDetails) (ro : Nat → RelationshipSheet)
    (n p : Nat) (a b : String) (c : Option String)
    (h : (fullTrace co ro n)[p]? = some (Event.relCall a b c)) :
    ∃ k idx, k < n ∧ idx < k ∧ k * k < p ∧
      ((a = (co k).name ∧ b = (co idx).name) ∨
       (a = (co idx).name ∧ b = (co k).name)) := by
  have hp : p < n * n := by
    by_contra hge
    have hlen : (fullTrace co ro n).length ≤ p := by
      rw [fullTrace_length]
      omega
    rw [List.getElem?_eq_none hlen] at h
    exact Option.noConfusion h
  obtain ⟨k, r, hk, hr, rfl⟩ := sq_decomp n p hp
  rw [fullTrace_get co ro n k r hk hr] at h
  rcases Nat.eq_zero_or_pos r with hr0 | hrpos
  · subst hr0
    rw [stepTrace_get_zero] at h
    simp at h
  · have hidx : (r - 1) / 2 < k := by omega
    have hδ : (r - 1) % 2 < 2 := by omega
    rcases (by omega : r = 2 * ((r - 1) / 2) + 1 ∨ r = 2 * ((r - 1) / 2) + 2) with hr' | hr'
    · rw [hr', stepTrace_get_first co ro k _ hidx] at h
      simp only [Option.some.injEq, Event.relCall.injEq] at h
      exact ⟨k, (r - 1) / 2, hk, hidx, by omega, Or.inl ⟨h.1.symm, h.2.1.symm⟩⟩
    · rw [hr', stepTrace_get_second co ro k _ hidx] at h
      simp only [Option.some.injEq, Event.relCall.injEq] at h
      exact ⟨k, (r - 1) / 2, hk, hidx, by omega, Or.inr ⟨h.1.symm, h.2.1.symm⟩⟩

/-! ## Counting lemmas (hypothesis-free) for the call-count claim -/

theorem countRel_append (t₁ t₂ : List Event) :
    countRel (t₁ ++ t₂) = countRel t₁ + countRel t₂ := by
  simp [countRel, List.filter_append]

theorem relLoop_components (ro : Nat → RelationshipSheet) :
    ∀ (ps : List NPCState) (nn : NPCState) (cnt : Nat) (tr : List Event),
      (relLoop ro ps nn cnt tr).1.length = ps.length ∧
      (relLoop ro ps nn cnt tr).2.2.1 = cnt + 2 * ps.length ∧
      countRel (relLoop ro ps nn cnt tr).2.2.2 = countRel tr + 2 * ps.length
  | [], nn, cnt, tr => by simp [relLoop]
  | p :: ps, nn, cnt, tr => by
    obtain ⟨hlen, hcnt, hrel⟩ := relLoop_components ro ps
      (set_relation nn p.name (ro cnt)) (cnt + 2)
      (tr ++ [Event.relCall nn.name p.name none,
              Event.relCall p.name (set_relation nn p.name (ro cnt)).name
                (some (dumpsRelations (set_relation nn p.name (ro cnt)).relations))])
    rw [relLoop]
    refine ⟨?_, ?_, ?_⟩
    · simp only [List.length_cons]
      rw [hlen]
    · rw [hcnt]
      simp [List.length_cons]
      omega
    · rw [hrel, countRel_append]
      simp [countRel, Event.isRel, List.length_cons]
      omega

theorem npcStep_relCalls (co : Nat → CharDetails) (ro : Nat → RelationshipSheet)
    (st : SessionState) (i : Nat) :
    countRel (npcStep co ro st i).trace = countRel st.trace + 2 * st.npc_nodes.length ∧
    (npcStep co ro st i).npc_nodes.length = st.npc_nodes.length + 1 ∧
    (npcStep co ro st i).callCount = st.callCount + 2 * st.npc_nodes.length := by
  obtain ⟨hlen, hcnt, hrel⟩ := relLoop_components ro st.npc_nodes (mkNPC (co i))
    st.callCount (st.trace ++ [Event.create (co i).name])
  simp only [npcStep]
  refine ⟨?_, ?_, ?_⟩
  · rw [hrel, countRel_append]
    simp [countRel, Event.isRel]
  · simp [hlen]
  · exact hcnt

theorem dictInsert_idem {V : Type} (d : List (String × V)) (k : String) (v : V) :
    dictInsert (dictInsert d k v) k v = dictInsert d k v := by
  by_cases h : (d.any fun p => p.1 == k) = true
  · have hin : dictInsert d k v = d.map (fun p => if p.1 == k then (k, v) else p) := by
      rw [dictInsert, if_pos h]
    rw [hin]
    have h2 : ((d.map fun p => if p.1 == k then (k, v) else p).any fun p => p.1 == k)
        = true := by
      rw [List.any_eq_true] at h ⊢
      obtain ⟨p, hp, hpk⟩ := h
      exact ⟨(k, v), List.mem_map.mpr ⟨p, hp, by simp [hpk]⟩, by simp⟩
    rw [dictInsert, if_pos h2, List.map_map]
    apply List.map_congr_left
    intro p hp
    by_cases hpk : (p.1 == k) = true
    · simp [Function.comp, hpk]
    · simp [Function.comp, hpk]
  · have hin : dictInsert d k v = d ++ [(k, v)] := by
      rw [dictInsert, if_neg h]
    rw [hin]
    have h2 : (((d ++ [(k, v)]).any fun p => p.1 == k)) = true := by simp
    rw [dictInsert, if_pos h2, List.map_append]
    have hall : ∀ p ∈ d, (p.1 == k) = false := by
      intro p hp
      by_contra hc
      exact h (List.any_eq_true.mpr ⟨p, hp, by revert hc; cases (p.1 == k) <;> simp⟩)
    have hmap : (d.map fun p => if p.1 == k then (k, v) else p) = d := by
      conv_rhs => rw [← List.map_id d]
      apply List.map_congr_left
      intro p hp
      simp [hall p hp]
    rw [hmap]
    simp

theorem nodes_getD (co : Nat → CharDetails) (ro : Nat → RelationshipSheet) (n i : Nat)
    (hinj : ∀ a b, a < n → b < n → (co a).name = (co b).name → a = b) (hi : i < n) :
    (runSession co ro n).npc_nodes.getD i dummyNPC = npcAt co ro i n := by
  obtain ⟨-, hnodes, -, -⟩ := runSession_closed co ro n hinj
  rw [hnodes, List.getD_eq_getElem?_getD, List.getElem?_map, List.getElem?_range hi]
  rfl

/-! ## The claims -/

/-- Claim C9: for every NPC, after any call to `add_to_memory` returns, the
memory list has length at most 8: whenever appending a conversation makes
the memory exceed 8 entries, the entire memory is collapsed into a single
one-element summary (the summarization call on the extended memory) before
the call returns. -/
theorem claim_C9 (npc : NPCState) (conversation : List String)
    (summaryOracle : List String → String) :
    (add_to_memory npc conversation summaryOracle).memory.length ≤ 8 ∧
    ((npc.memory ++ conversation).length > 8 →
      (add_to_memory npc conversation summaryOracle).memory
        = [summaryOracle (npc.memory ++ conversation)]) := by
  unfold add_to_memory
  by_cases h : (npc.memory ++ conversation).length > 8
  · rw [if_pos h]
    constructor
    · simp
    · intro hc
      rfl
  · rw [if_neg h]
    refine ⟨by simpa using Nat.le_of_not_lt h, fun hc => absurd hc h⟩

/-- Witness for C9 at a concrete over-long conversation: appending nine
messages to an empty memory exceeds 8, so the memory collapses to the
one-element summary, and the post-call length is at most 8. -/
theorem claim_C9_witness :
    (dummyNPC.memory ++ ["a", "b", "c", "d", "e", "f", "g", "h", "i"]).length > 8 ∧
    (add_to_memory dummyNPC ["a", "b", "c", "d", "e", "f", "g", "h", "i"]
        (fun _ => "sum")).memory
      = [(fun _ : List String => "sum") (dummyNPC.memory ++ ["a", "b", "c", "d", "e", "f", "g", "h", "i"])] ∧
    (add_to_memory dummyNPC ["a", "b", "c", "d", "e", "f", "g", "h", "i"]
        (fun _ => "sum")).memory.length ≤ 8 :=
  ⟨by decide,
   (claim_C9 dummyNPC ["a", "b", "c", "d", "e", "f", "g", "h", "i"] (fun _ => "sum")).2
     (by decide),
   (claim_C9 dummyNPC ["a", "b", "c", "d", "e", "f", "g", "h", "i"] (fun _ => "sum")).1⟩

/-- Counterexample to claim C7 as stated: the sanitizer replaces every
character outside `[A-Za-z]` by an underscore, and the digit `2` is outside
that class, so the name `"Mira-Jang 2"` yields `"Mira_Jang__"`, not the
claimed `"Mira_Jang_2"`. -/
theorem claim_C7_counterexample :
    sanitizeName "Mira-Jang 2" = "Mira_Jang__" ∧
    sanitizeName "Mira-Jang 2" ≠ "Mira_Jang_2" := by
  constructor
  · rfl
  · decide

/-- Claim C7 (amended): the exported record identifier is obtained from
the NPC name by replacing every character outside `[A-Za-z]` with an
underscore, leaving ASCII letters unchanged (position by position, so the
length is preserved); in particular `"Mira-Jang 2"` yields
`"Mira_Jang__"` (the digit is replaced too). -/
theorem claim_C7 (s : String) :
    (sanitizeName s).data.length = s.data.length ∧
    (∀ i : Nat, (sanitizeName s).data[i]? =
      (s.data[i]?).map (fun c =>
        if ('a' ≤ c ∧ c ≤ 'z') ∨ ('A' ≤ c ∧ c ≤ 'Z') then c else '_')) ∧
    sanitizeName "Mira-Jang 2" = "Mira_Jang__" := by
  refine ⟨by simp [sanitizeName], ?_, by rfl⟩
  intro i
  simp only [sanitizeName, List.getElem?_map]
  rfl

/-- Claim C8: exporting the same NPC twice to the same location is
idempotent (the directory-creation step and the overwriting file write
leave the store exactly as after the first export, so the second record is
byte-identical), and the payload serializes exactly the keys `name, tldr,
speech_pattern, motivation, character_sheet, relations` in that order. -/
theorem claim_C8 (store : Store) (output_directory : String) (npc : NPCState) :
    export_npc (export_npc store output_directory npc) output_directory npc
      = export_npc store output_directory npc ∧
    (exportPairs npc).map Prod.fst
      = ["name", "tldr", "speech_pattern", "motivation", "character_sheet", "relations"] := by
  constructor
  · unfold export_npc
    by_cases h : output_directory ∈ store.dirs
    · simp [h, dictInsert_idem]
    · simp [h, dictInsert_idem]
  · rfl

theorem downsample_spec {α : Type} [DecidableEq α] (l : List α) (target : Nat)
    (shuffled : List α) (hperm : List.Perm shuffled l) :
    (l.length > target → (downsample l target shuffled).length = target ∧
        List.Subperm (downsample l target shuffled) l) ∧
    (¬ l.length > target → downsample l target shuffled = l) ∧
    (downsample l target shuffled).length ≤ target ∧
    (∀ x, (downsample l target shuffled).count x ≤ l.count x) := by
  unfold downsample
  by_cases h : l.length > target
  · simp only [if_pos h]
    have hsub : List.Subperm (shuffled.take target) l :=
      (List.take_sublist target shuffled).subperm.trans hperm.subperm
    have hlen : (shuffled.take target).length = target := by
      rw [List.length_take, hperm.length_eq]
      omega
    exact ⟨fun _ => ⟨hlen, hsub⟩, fun hc => absurd h hc, by omega,
      fun x => hsub.count_le x⟩
  · simp only [if_neg h]
    exact ⟨fun hc => absurd hc h, fun _ => trivial, by omega, fun x => Nat.le_refl _⟩

/-- Claim C4: for each of the three palette lists independently, if the raw
generated list is longer than its target, the output is a subset of exactly
the target size drawn without replacement (a sub-permutation, so no entry
is duplicated beyond the source multiplicities); otherwise the list is kept
unchanged; and every output list is at most the target length.  The random
draw without replacement is modelled as a prefix of a permutation of the
raw list, supplied as the hypotheses. -/
theorem claim_C4 (raw : RawLists)
    (num_characteristics num_occupations num_motivating_entities : Nat)
    (shP shO : List String) (shM : List MotEnt)
    (hP : List.Perm shP raw.personas) (hO : List.Perm shO raw.occupations)
    (hM : List.Perm shM raw.motivating_entities) :
    ((raw.personas.length > num_characteristics →
        (generate_lists raw num_characteristics num_occupations num_motivating_entities
          shP shO shM).personas.length = num_characteristics ∧
        List.Subperm (generate_lists raw num_characteristics num_occupations
          num_motivating_entities shP shO shM).personas raw.personas) ∧
      (¬ raw.personas.length > num_characteristics →
        (generate_lists raw num_characteristics num_occupations num_motivating_entities
          shP shO shM).personas = raw.personas) ∧
      (generate_lists raw num_characteristics num_occupations num_motivating_entities
        shP shO shM).personas.length ≤ num_characteristics ∧
      (∀ x, (generate_lists raw num_characteristics num_occupations
          num_motivating_entities shP shO shM).personas.count x
        ≤ raw.personas.count x)) ∧
    ((raw.occupations.length > num_occupations →
        (generate_lists raw num_characteristics num_occupations num_motivating_entities
          shP shO shM).occupations.length = num_occupations ∧
        List.Subperm (generate_lists raw num_characteristics num_occupations
          num_motivating_entities shP shO shM).occupations raw.occupations) ∧
      (¬ raw.occupations.length > num_occupations →
        (generate_lists raw num_characteristics num_occupations num_motivating_entities
          shP shO shM).occupations = raw.occupations) ∧
      (generate_lists raw num_characteristics num_occupations num_motivating_entities
        shP shO shM).occupations.length ≤ num_occupations ∧
      (∀ x, (generate_lists raw num_characteristics num_occupations
          num_motivating_entities shP shO shM).occupations.count x
        ≤ raw.occupations.count x)) ∧
    ((raw.motivating_entities.length > num_motivating_entities →
        (generate_lists raw num_characteristics num_occupations num_motivating_entities
          shP shO shM).motivating_entities.length = num_motivating_entities ∧
        List.Subperm (generate_lists raw num_characteristics num_occupations
          num_motivating_entities shP shO shM).motivating_entities
          raw.motivating_entities) ∧
      (¬ raw.motivating_entities.length > num_motivating_entities →
        (generate_lists raw num_characteristics num_occupations num_motivating_entities
          shP shO shM).motivating_entities = raw.motivating_entities) ∧
      (generate_lists raw num_characteristics num_occupations num_motivating_entities
        shP shO shM).motivating_entities.length ≤ num_motivating_entities ∧
      (∀ x, (generate_lists raw num_characteristics num_occupations
          num_motivating_entities shP shO shM).motivating_entities.count x
        ≤ raw.motivating_entities.count x)) :=
  ⟨downsample_spec raw.personas num_characteristics shP hP,
   downsample_spec raw.occupations num_occupations shO hO,
   downsample_spec raw.motivating_entities num_motivating_entities shM hM⟩

/-- Witness for C4 at concrete lists: the over-long personas list (three
entries, target two) is cut to exactly two entries forming a
sub-permutation of the source, and the occupations list at or below its
target is kept unchanged. -/
theorem claim_C4_witness :
    List.Perm ["c", "a", "b"] ["a", "b", "c"] ∧
    (generate_lists ⟨["a", "b", "c"], ["x"], [⟨"m", "d"⟩]⟩ 2 5 1
        ["c", "a", "b"] ["x"] [⟨"m", "d"⟩]).personas.length = 2 ∧
    List.Subperm (generate_lists ⟨["a", "b", "c"], ["x"], [⟨"m", "d"⟩]⟩ 2 5 1
        ["c", "a", "b"] ["x"] [⟨"m", "d"⟩]).personas ["a", "b", "c"] ∧
    (generate_lists ⟨["a", "b", "c"], ["x"], [⟨"m", "d"⟩]⟩ 2 5 1
        ["c", "a", "b"] ["x"] [⟨"m", "d"⟩]).occupations = ["x"] :=
  ⟨by decide,
   ((claim_C4 ⟨["a", "b", "c"], ["x"], [⟨"m", "d"⟩]⟩ 2 5 1 ["c", "a", "b"] ["x"]
      [⟨"m", "d"⟩] (by decide) (by decide) (by decide)).1.1 (by decide)).1,
   ((claim_C4 ⟨["a", "b", "c"], ["x"], [⟨"m", "d"⟩]⟩ 2 5 1 ["c", "a", "b"] ["x"]
      [⟨"m", "d"⟩] (by decide) (by decide) (by decide)).1.1 (by decide)).2,
   (claim_C4 ⟨["a", "b", "c"], ["x"], [⟨"m", "d"⟩]⟩ 2 5 1 ["c", "a", "b"] ["x"]
      [⟨"m", "d"⟩] (by decide) (by decide) (by decide)).2.1.2.1 (by decide)⟩

/-- Counterexample to claim C5 as stated, at the in-range input
`num_npcs = 3`, occupation-diversity slider `1`, character-trait-diversity
slider `1/2`, motivation-diversity slider `1/2`: the code computes the
targets with `int()` truncation and crossed ratios
(`num_occupations` from the character-trait slider, `num_characteristics`
from the occupation slider), giving `(1, 3, 1)`, while the claimed formula
`round(total × matching ratio / downscaleFactor)` gives `(3, 2, 2)`. -/
theorem claim_C5_counterexample :
    (1 : ℕ) ≤ 3 ∧ (3 : ℕ) ≤ 20 ∧
    (0 : ℚ) ≤ 1 ∧ (1 : ℚ) ≤ 1 ∧ (0 : ℚ) ≤ 1 / 2 ∧ (1 / 2 : ℚ) ≤ 1 ∧
    gameDetailsTargets ⟨1, 1 / 2, 1 / 2, 3⟩ = (1, 3, 1) ∧
    claimedTargets ⟨1, 1 / 2, 1 / 2, 3⟩ = (3, 2, 2) ∧
    gameDetailsTargets ⟨1, 1 / 2, 1 / 2, 3⟩ ≠ claimedTargets ⟨1, 1 / 2, 1 / 2, 3⟩ := by
  refine ⟨by norm_num, by norm_num, by norm_num, by norm_num, by norm_num, by norm_num,
    ?_, ?_, ?_⟩
  · show (pyInt ((3 : ℚ) * (1 / 2) / downscale_factor),
      pyInt ((3 : ℚ) * 1 / downscale_factor),
      pyInt ((3 : ℚ) * (1 / 2) / downscale_factor)) = (1, 3, 1)
    norm_num [pyInt, downscale_factor, Prod.ext_iff]
  · show (round ((3 : ℚ) * 1 / downscale_factor),
      round ((3 : ℚ) * (1 / 2) / downscale_factor),
      round ((3 : ℚ) * (1 / 2) / downscale_factor)) = (3, 2, 2)
    norm_num [downscale_factor, round_eq, Prod.ext_iff]
  · intro hEq
    rw [show gameDetailsTargets ⟨1, 1 / 2, 1 / 2, 3⟩ = (1, 3, 1) from by
      norm_num [gameDetailsTargets, pyInt, downscale_factor, Prod.ext_iff]] at hEq
    rw [show claimedTargets ⟨1, 1 / 2, 1 / 2, 3⟩ = (3, 2, 2) from by
      norm_num [claimedTargets, downscale_factor, round_eq, Prod.ext_iff]] at hEq
    simp at hEq

/-- Claim C5 (amended): for every NPC count in `[1, 20]` and ratios in
`[0, 1]`, each target is computed with Python `int()` truncation — which on
these nonnegative values is the floor, not `round` — of
`totalCount × ratio / downscaleFactor`, and the ratios are crossed relative
to the slider labels: the occupations target uses the character-trait
diversity slider, the personas (characteristics) target uses the
occupation-diversity slider, and only the motivating-entities target uses
the motivation-diversity slider. -/
theorem claim_C5 (inp : SliderInputs)
    (h1 : 1 ≤ inp.num_npcs) (h2 : inp.num_npcs ≤ 20)
    (ho1 : 0 ≤ inp.npc_diversity) (ho2 : inp.npc_diversity ≤ 1)
    (hc1 : 0 ≤ inp.character_diversity) (hc2 : inp.character_diversity ≤ 1)
    (hm1 : 0 ≤ inp.motivation_diversity) (hm2 : inp.motivation_diversity ≤ 1) :
    gameDetailsTargets inp =
      (⌊(inp.num_npcs : ℚ) * inp.character_diversity / downscale_factor⌋,
       ⌊(inp.num_npcs : ℚ) * inp.npc_diversity / downscale_factor⌋,
       ⌊(inp.num_npcs : ℚ) * inp.motivation_diversity / downscale_factor⌋) := by
  have key : ∀ q : ℚ, 0 ≤ q → pyInt q = ⌊q⌋ := by
    intro q hq
    rw [pyInt, if_neg (not_lt.mpr hq)]
  have hd : (0 : ℚ) ≤ downscale_factor := by norm_num [downscale_factor]
  unfold gameDetailsTargets
  rw [key _ (div_nonneg (mul_nonneg (Nat.cast_nonneg _) hc1) hd),
    key _ (div_nonneg (mul_nonneg (Nat.cast_nonneg _) ho1) hd),
    key _ (div_nonneg (mul_nonneg (Nat.cast_nonneg _) hm1) hd)]

/-- Witness for C5 (amended) at the counterexample input: the computed
targets are the floors of the crossed products. -/
theorem claim_C5_witness :
    (1 : ℕ) ≤ 3 ∧ (3 : ℕ) ≤ 20 ∧
    gameDetailsTargets ⟨1, 1 / 2, 1 / 2, 3⟩ =
      (⌊((3 : ℕ) : ℚ) * (1 / 2) / downscale_factor⌋,
       ⌊((3 : ℕ) : ℚ) * 1 / downscale_factor⌋,
       ⌊((3 : ℕ) : ℚ) * (1 / 2) / downscale_factor⌋) :=
  ⟨by norm_num, by norm_num,
   claim_C5 ⟨1, 1 / 2, 1 / 2, 3⟩ (by norm_num) (by norm_num) (by norm_num) (by norm_num)
     (by norm_num) (by norm_num) (by norm_num) (by norm_num)⟩

theorem randChoice_nil {α : Type} (r : Nat) : randChoice ([] : List α) r = none := by
  simp [randChoice]

theorem target_zero (inp : SliderInputs) (d : ℚ) (hd : d = 0) :
    (pyInt ((inp.num_npcs : ℚ) * d / downscale_factor)).toNat = 0 := by
  subst hd
  norm_num [pyInt, downscale_factor]

theorem downsample_target_zero {α : Type} (l : List α) (sh : List α) (hne : l ≠ []) :
    downsample l 0 sh = [] := by
  rw [downsample, if_pos (by simpa [List.length_pos] using hne)]
  simp

/-- Claim C10: a diversity ratio of `0` (allowed by the input ranges) makes
the corresponding palette target `0`, so a non-empty raw list for that
category is downsampled to the empty list, and the very first loop
iteration's uniform draw from that empty list fails
(`np.random.choice` raises on an empty list), aborting the session with
zero NPCs created.  The crossed ratio wiring of `app()` means the
occupation-diversity slider (`npc_diversity`) gates `personas`, the
character-trait slider (`character_diversity`) gates `occupations`, and the
motivation slider gates `motivating_entities`. -/
theorem claim_C10 (raw : RawLists) (inp : SliderInputs)
    (shP shO : List String) (shM : List MotEnt) (pick : Nat → Nat)
    (co : Nat → CharDetails) (ro : Nat → RelationshipSheet)
    (hn : 1 ≤ inp.num_npcs)
    (hzero : (inp.npc_diversity = 0 ∧ raw.personas ≠ []) ∨
      (inp.character_diversity = 0 ∧ raw.occupations ≠ []) ∨
      (inp.motivation_diversity = 0 ∧ raw.motivating_entities ≠ [])) :
    runApp raw inp shP shO shM pick co ro = Except.error 0 ∧
    ((inp.npc_diversity = 0 ∧ raw.personas ≠ []) →
      (appPalette raw inp shP shO shM).personas = []) ∧
    ((inp.character_diversity = 0 ∧ raw.occupations ≠ []) →
      (appPalette raw inp shP shO shM).occupations = []) ∧
    ((inp.motivation_diversity = 0 ∧ raw.motivating_entities ≠ []) →
      (appPalette raw inp shP shO shM).motivating_entities = []) := by
  have hP : (inp.npc_diversity = 0 ∧ raw.personas ≠ []) →
      (appPalette raw inp shP shO shM).personas = [] := by
    rintro ⟨hd, hne⟩
    show downsample raw.personas (gameDetailsTargets inp).2.1.toNat shP = []
    rw [show (gameDetailsTargets inp).2.1
        = pyInt ((inp.num_npcs : ℚ) * inp.npc_diversity / downscale_factor) from rfl]
    rw [target_zero inp _ hd]
    exact downsample_target_zero _ _ hne
  have hO : (inp.character_diversity = 0 ∧ raw.occupations ≠ []) →
      (appPalette raw inp shP shO shM).occupations = [] := by
    rintro ⟨hd, hne⟩
    show downsample raw.occupations (gameDetailsTargets inp).1.toNat shO = []
    rw [show (gameDetailsTargets inp).1
        = pyInt ((inp.num_npcs : ℚ) * inp.character_diversity / downscale_factor) from rfl]
    rw [target_zero inp _ hd]
    exact downsample_target_zero _ _ hne
  have hM : (inp.motivation_diversity = 0 ∧ raw.motivating_entities ≠ []) →
      (appPalette raw inp shP shO shM).motivating_entities = [] := by
    rintro ⟨hd, hne⟩
    show downsample raw.motivating_entities (gameDetailsTargets inp).2.2.toNat shM = []
    rw [show (gameDetailsTargets inp).2.2
        = pyInt ((inp.num_npcs : ℚ) * inp.motivation_diversity / downscale_factor) from rfl]
    rw [target_zero inp _ hd]
    exact downsample_target_zero _ _ hne
  refine ⟨?_, hP, hO, hM⟩
  obtain ⟨m, hm⟩ : ∃ m, inp.num_npcs = m + 1 := ⟨inp.num_npcs - 1, by omega⟩
  rw [runApp, hm, List.range_succ_eq_map]
  rcases hzero with hz | hz | hz
  · rw [appLoop, hP hz, randChoice_nil]
    rfl
  · rw [appLoop, hO hz, randChoice_nil]
    cases randChoice (appPalette raw inp shP shO shM).personas (pick (3 * 0)) <;> rfl
  · rw [appLoop, hM hz, randChoice_nil]
    cases randChoice (appPalette raw inp shP shO shM).personas (pick (3 * 0)) <;>
      cases randChoice (appPalette raw inp shP shO shM).occupations (pick (3 * 0 + 1)) <;>
      rfl

/-- Witness for C10: with the occupation-diversity slider at `0`, a
non-empty raw personas list, and two requested NPCs, the session aborts
with zero NPCs created and the downsampled personas palette is empty. -/
theorem claim_C10_witness :
    (1 : ℕ) ≤ 2 ∧ ((0 : ℚ) = 0 ∧ (["p"] : List String) ≠ []) ∧
    runApp ⟨["p"], ["o"], [⟨"m", "d"⟩]⟩ ⟨0, 1, 1, 2⟩ [] [] [] (fun _ => 0) coABC roK
      = Except.error 0 ∧
    (appPalette ⟨["p"], ["o"], [⟨"m", "d"⟩]⟩ ⟨0, 1, 1, 2⟩ [] [] []).personas = [] :=
  ⟨by norm_num, ⟨rfl, by decide⟩,
   (claim_C10 ⟨["p"], ["o"], [⟨"m", "d"⟩]⟩ ⟨0, 1, 1, 2⟩ [] [] [] (fun _ => 0) coABC roK
      (by norm_num) (Or.inl ⟨rfl, by decide⟩)).1,
   (claim_C10 ⟨["p"], ["o"], [⟨"m", "d"⟩]⟩ ⟨0, 1, 1, 2⟩ [] [] [] (fun _ => 0) coABC roK
      (by norm_num) (Or.inl ⟨rfl, by decide⟩)).2.1 ⟨rfl, by decide⟩⟩

theorem coABC_inj : ∀ a b, a < 3 → b < 3 → (coABC a).name = (coABC b).name → a = b := by
  intro a b ha hb h
  interval_cases a <;> interval_cases b <;> revert h <;> decide

/-- Counterexample to claim C1 as stated: in a three-NPC session, the
second call of the pair (new NPC `Cy`, prior `Bo`) — trace position 8 —
carries as context the serialization of `Cy`'s entire relations dict,
which at that point holds both the `Cy → Ann` edge and the just-produced
`Cy → Bo` edge; it is not the serialization of only the just-produced
`Cy → Bo` edge (in either serialized shape). -/
theorem claim_C1_counterexample :
    (runSession coABC roK 3).trace[8]?
      = some (Event.relCall "Bo" "Cy"
          (some (dumpsRelations [("Ann", roK 2), ("Bo", roK 4)]))) ∧
    dumpsRelations [("Ann", roK 2), ("Bo", roK 4)] ≠ dumpsRelations [("Bo", roK 4)] ∧
    dumpsRelations [("Ann", roK 2), ("Bo", roK 4)] ≠ dumpsSheet (roK 4) := by
  refine ⟨by decide, by decide, by decide⟩

/-- Claim C1 (amended): for every pair (new NPC `i`, prior `idx`) in a
session with pairwise distinct names, exactly two relationship calls are
issued in sequence: the first presents `i` as NPC 1 and `idx` as NPC 2 with
no extra context and its result is stored as `i`'s edge under `idx`'s name;
the second presents `idx` as NPC 1 and `i` as NPC 2 and supplies as context
the serialization of `i`'s whole relations dict accumulated so far — the
just-produced `i → idx` edge appended after the edges to all earlier
priors, not that edge alone — and its result is stored as `idx`'s edge
under `i`'s name. -/
theorem claim_C1 (co : Nat → CharDetails) (ro : Nat → RelationshipSheet)
    (n i idx : Nat)
    (hinj : ∀ a b, a < n → b < n → (co a).name = (co b).name → a = b)
    (hidx : idx < i) (hi : i < n) :
    (runSession co ro n).trace[i * i + 2 * idx + 1]?
      = some (Event.relCall (co i).name (co idx).name none) ∧
    dictGet ((runSession co ro n).npc_nodes.getD i dummyNPC).relations ((co idx).name)
      = some (ro (i * (i - 1) + 2 * idx)) ∧
    (runSession co ro n).trace[i * i + 2 * idx + 2]?
      = some (Event.relCall (co idx).name (co i).name
          (some (dumpsRelations (newEdgesPrefix co ro i (idx + 1))))) ∧
    newEdgesPrefix co ro i (idx + 1)
      = newEdgesPrefix co ro i idx ++ [((co idx).name, ro (i * (i - 1) + 2 * idx))] ∧
    dictGet ((runSession co ro n).npc_nodes.getD idx dummyNPC).relations ((co i).name)
      = some (ro (i * (i - 1) + 2 * idx + 1)) := by
  obtain ⟨-, -, -, htr⟩ := runSession_closed co ro n hinj
  refine ⟨?_, ?_, ?_, ?_, ?_⟩
  · rw [htr, show i * i + 2 * idx + 1 = i * i + (2 * idx + 1) by omega,
      fullTrace_get co ro n i (2 * idx + 1) hi (by omega),
      stepTrace_get_first co ro i idx hidx]
  · rw [nodes_getD co ro n i hinj hi]
    exact npcAt_lookup_lt co ro n i idx hinj hi hidx
  · rw [htr, show i * i + 2 * idx + 2 = i * i + (2 * idx + 2) by omega,
      fullTrace_get co ro n i (2 * idx + 2) hi (by omega),
      stepTrace_get_second co ro i idx hidx]
  · rw [newEdgesPrefix, newEdgesPrefix, List.range_succ, List.map_append]
    rfl
  · rw [nodes_getD co ro n idx hinj (by omega)]
    exact npcAt_lookup_gt co ro n idx i hinj hidx hi

/-- Witness for C1 (amended) in the concrete three-NPC session, at the
pair (new NPC 2, prior 1). -/
theorem claim_C1_witness :
    (1 : ℕ) < 2 ∧ (2 : ℕ) < 3 ∧
    ((runSession coABC roK 3).trace[2 * 2 + 2 * 1 + 1]?
      = some (Event.relCall (coABC 2).name (coABC 1).name none) ∧
    dictGet ((runSession coABC roK 3).npc_nodes.getD 2 dummyNPC).relations ((coABC 1).name)
      = some (roK (2 * (2 - 1) + 2 * 1)) ∧
    (runSession coABC roK 3).trace[2 * 2 + 2 * 1 + 2]?
      = some (Event.relCall (coABC 1).name (coABC 2).name
          (some (dumpsRelations (newEdgesPrefix coABC roK 2 (1 + 1))))) ∧
    newEdgesPrefix coABC roK 2 (1 + 1)
      = newEdgesPrefix coABC roK 2 1 ++ [((coABC 1).name, roK (2 * (2 - 1) + 2 * 1))] ∧
    dictGet ((runSession coABC roK 3).npc_nodes.getD 1 dummyNPC).relations ((coABC 2).name)
      = some (roK (2 * (2 - 1) + 2 * 1 + 1))) :=
  ⟨by decide, by decide, claim_C1 coABC roK 3 2 1 coABC_inj (by decide) (by decide)⟩

/-- Counterexample to claim C2 as stated: the claim's stability clause
("once an edge is stored it is never deleted or mutated") fails when two
NPCs share a name.  With NPC 0 named `Ann` and NPCs 1 and 2 both named
`Bo`, the state after two creation steps is exactly the intermediate state
of the three-NPC session, and `Ann`'s stored edge under the key `Bo` is the
second call result of step 1 (`roK 1`) there, but is overwritten by the
second call result of step 2 (`roK 3`) when NPC 2 is created. -/
theorem claim_C2_counterexample :
    runSession coColl roK 3 = npcStep coColl roK (runSession coColl roK 2) 2 ∧
    dictGet ((runSession coColl roK 2).npc_nodes.getD 0 dummyNPC).relations
        ((coColl 1).name) = some (roK 1) ∧
    dictGet ((runSession coColl roK 3).npc_nodes.getD 0 dummyNPC).relations
        ((coColl 1).name) = some (roK 3) ∧
    roK 1 ≠ roK 3 :=
  ⟨runSession_succ coColl roK 2, by decide, by decide, by decide⟩

/-- Claim C2 (amended): in a session whose generated names are pairwise
distinct, for every ordered pair (A = NPC `i`, B = NPC `j`) with `j`
created after `i`, at every point from the completion of `j`'s creation
step to the end of the session both `A.relations[B.name]` and
`B.relations[A.name]` hold an edge, and the stored values are fixed
oracle results independent of the observation point — so edges, once
stored, are never deleted or mutated; and every key in an NPC's relations
dict names an already-created NPC, so no edge exists before both endpoints
exist.  (The distinct-names hypothesis is forced by the name-collision
counterexample.) -/
theorem claim_C2 (co : Nat → CharDetails) (ro : Nat → RelationshipSheet)
    (n m i j : Nat)
    (hinj : ∀ a b, a < n → b < n → (co a).name = (co b).name → a = b)
    (hij : i < j) (hjm : j < m) (hmn : m ≤ n) :
    dictGet ((runSession co ro m).npc_nodes.getD i dummyNPC).relations ((co j).name)
      = some (ro (j * (j - 1) + 2 * i + 1)) ∧
    dictGet ((runSession co ro m).npc_nodes.getD j dummyNPC).relations ((co i).name)
      = some (ro (j * (j - 1) + 2 * i)) ∧
    (∀ q ∈ ((runSession co ro m).npc_nodes.getD i dummyNPC).relations,
      ∃ s, s < m ∧ s ≠ i ∧ q.1 = (co s).name) := by
  have hinjm : ∀ a b, a < m → b < m → (co a).name = (co b).name → a = b :=
    fun a b ha hb => hinj a b (Nat.lt_of_lt_of_le ha hmn) (Nat.lt_of_lt_of_le hb hmn)
  refine ⟨?_, ?_, ?_⟩
  · rw [nodes_getD co ro m i hinjm (by omega)]
    exact npcAt_lookup_gt co ro m i j hinjm hij hjm
  · rw [nodes_getD co ro m j hinjm hjm]
    exact npcAt_lookup_lt co ro m j i hinjm hjm hij
  · rw [nodes_getD co ro m i hinjm (by omega)]
    exact closedRelations_keys co ro i m (by omega)

/-- Witness for C2 (amended): in the concrete session, immediately after
NPC 1's creation step (`m = 2`) the pair (0, 1) has both directed edges
stored, and applying the theorem again at the end of the session (`m = 3`)
yields the same two values, exhibiting immutability. -/
theorem claim_C2_witness :
    (0 : ℕ) < 1 ∧ (1 : ℕ) < 2 ∧ (2 : ℕ) ≤ 3 ∧
    (dictGet ((runSession coABC roK 2).npc_nodes.getD 0 dummyNPC).relations
        ((coABC 1).name) = some (roK (1 * (1 - 1) + 2 * 0 + 1)) ∧
     dictGet ((runSession coABC roK 2).npc_nodes.getD 1 dummyNPC).relations
        ((coABC 0).name) = some (roK (1 * (1 - 1) + 2 * 0)) ∧
     (∀ q ∈ ((runSession coABC roK 2).npc_nodes.getD 0 dummyNPC).relations,
       ∃ s, s < 2 ∧ s ≠ 0 ∧ q.1 = (coABC s).name)) ∧
    (dictGet ((runSession coABC roK 3).npc_nodes.getD 0 dummyNPC).relations
        ((coABC 1).name) = some (roK (1 * (1 - 1) + 2 * 0 + 1)) ∧
     dictGet ((runSession coABC roK 3).npc_nodes.getD 1 dummyNPC).relations
        ((coABC 0).name) = some (roK (1 * (1 - 1) + 2 * 0)) ∧
     (∀ q ∈ ((runSession coABC roK 3).npc_nodes.getD 0 dummyNPC).relations,
       ∃ s, s < 3 ∧ s ≠ 0 ∧ q.1 = (coABC s).name)) :=
  ⟨by decide, by decide, by decide,
   claim_C2 coABC roK 3 2 0 1 coABC_inj (by decide) (by decide) (by decide),
   claim_C2 coABC roK 3 3 0 1 coABC_inj (by decide) (by decide) (by decide)⟩

/-- Claim C3: in a session with pairwise distinct names, the trace shows
that (a) NPC `i`'s creation event sits at position `i²`, before any of its
relationship calls; (b) for each pair the `i → idx` call (position
`i² + 2·idx + 1`) comes strictly before the `idx → i` call (position
`i² + 2·idx + 2`); (c) earlier-created priors are processed strictly
earlier within a step; and (d) every relationship call naming NPC `i` in
either role sits strictly after `i`'s creation position `i²` — identity
generation completes before any edge involving the NPC is requested. -/
theorem claim_C3 (co : Nat → CharDetails) (ro : Nat → RelationshipSheet) (n : Nat)
    (hinj : ∀ a b, a < n → b < n → (co a).name = (co b).name → a = b) :
    (∀ i, i < n →
      (runSession co ro n).trace[i * i]? = some (Event.create (co i).name)) ∧
    (∀ i idx, idx < i → i < n →
      (runSession co ro n).trace[i * i + 2 * idx + 1]?
          = some (Event.relCall (co i).name (co idx).name none) ∧
      (runSession co ro n).trace[i * i + 2 * idx + 2]?
          = some (Event.relCall (co idx).name (co i).name
              (some (dumpsRelations (newEdgesPrefix co ro i (idx + 1))))) ∧
      i * i < i * i + 2 * idx + 1 ∧ i * i + 2 * idx + 1 < i * i + 2 * idx + 2) ∧
    (∀ i idx idx', idx < idx' → idx' < i → i < n →
      i * i + 2 * idx + 2 < i * i + 2 * idx' + 1) ∧
    (∀ p a b c i, (runSession co ro n).trace[p]? = some (Event.relCall a b c) →
      i < n → ((co i).name = a ∨ (co i).name = b) → i * i < p) := by
  obtain ⟨-, -, -, htr⟩ := runSession_closed co ro n hinj
  refine ⟨?_, ?_, ?_, ?_⟩
  · intro i hi
    rw [htr, show i * i = i * i + 0 by omega,
      fullTrace_get co ro n i 0 hi (by omega), stepTrace_get_zero]
  · intro i idx hidx hi
    refine ⟨?_, ?_, by omega, by omega⟩
    · rw [htr, show i * i + 2 * idx + 1 = i * i + (2 * idx + 1) by omega,
        fullTrace_get co ro n i (2 * idx + 1) hi (by omega),
        stepTrace_get_first co ro i idx hidx]
    · rw [htr, show i * i + 2 * idx + 2 = i * i + (2 * idx + 2) by omega,
        fullTrace_get co ro n i (2 * idx + 2) hi (by omega),
        stepTrace_get_second co ro i idx hidx]
  · intro i idx idx' h1 h2 h3
    omega
  · intro p a b c i hp hi hname
    rw [htr] at hp
    obtain ⟨k, idx2, hk, hidx2, hkp, hnames⟩ := trace_relCall_inv co ro n p a b c hp
    have hile : i ≤ k := by
      rcases hname with hEq | hEq <;> rcases hnames with ⟨ha, hb⟩ | ⟨ha, hb⟩
      · have := hinj i k hi hk (by rw [hEq, ha])
        omega
      · have := hinj i idx2 hi (by omega) (by rw [hEq, ha])
        omega
      · have := hinj i idx2 hi (by omega) (by rw [hEq, hb])
        omega
      · have := hinj i k hi hk (by rw [hEq, hb])
        omega
    calc i * i ≤ k * k := Nat.mul_le_mul hile hile
      _ < p := hkp

/-- Witness for C3 in the concrete three-NPC session. -/
theorem claim_C3_witness :
    ((runSession coABC roK 3).trace[2 * 2]? = some (Event.create (coABC 2).name)) ∧
    ((runSession coABC roK 3).trace[2 * 2 + 2 * 1 + 1]?
      = some (Event.relCall (coABC 2).name (coABC 1).name none)) ∧
    ((runSession coABC roK 3).trace[2 * 2 + 2 * 1 + 2]?
      = some (Event.relCall (coABC 1).name (coABC 2).name
          (some (dumpsRelations (newEdgesPrefix coABC roK 2 (1 + 1)))))) :=
  ⟨(claim_C3 coABC roK 3 coABC_inj).1 2 (by decide),
   ((claim_C3 coABC roK 3 coABC_inj).2.1 2 1 (by decide) (by decide)).1,
   ((claim_C3 coABC roK 3 coABC_inj).2.1 2 1 (by decide) (by decide)).2.1⟩

/-- Claim C6: the inner loop of each creation step issues exactly two
relationship calls per (existing NPC, new NPC) pair, so adding the
(k+1)-th NPC issues exactly `2·k` relationship calls (first conjunct,
for every reachable or unreachable state alike); and in the concrete
three-NPC session with distinct names there are exactly 3 NPCs, exactly 6
directional relationship calls and stored edges, each exported record
carrying exactly 2 relation entries, and 3 exported record files. -/
theorem claim_C6 :
    (∀ (co : Nat → CharDetails) (ro : Nat → RelationshipSheet)
        (st : SessionState) (i : Nat),
      countRel (npcStep co ro st i).trace
          = countRel st.trace + 2 * st.npc_nodes.length ∧
      (npcStep co ro st i).npc_nodes.length = st.npc_nodes.length + 1) ∧
    (runSession coABC roK 3).npc_nodes.length = 3 ∧
    countRel (runSession coABC roK 3).trace = 6 ∧
    (runSession coABC roK 3).npc_nodes.map (fun p => p.relations.length) = [2, 2, 2] ∧
    (exportAll emptyStore "./characters" (runSession coABC roK 3).npc_nodes).files.length
      = 3 := by
  refine ⟨fun co ro st i =>
    ⟨(npcStep_relCalls co ro st i).1, (npcStep_relCalls co ro st i).2.1⟩,
    by decide, by decide, by decide, by decide⟩

end NPCGen
